import Mathlib

/-!
Verification of `pico_reaction_game.py`: a shallow embedding of the round
state machine, input arbitration, serial line framing and the serial reader
of the single-file reaction game, together with proofs of the spec's
testable properties.

Modelling conventions:
* Python `time.time()` timestamps and the reaction window are embedded as
  rationals (only order and subtraction matter to the program).
* Python unbounded ints (`score`, `lives`, `round_no`) are embedded as `ℤ`.
* `random.choice(directions)` is a swappable capability: the chosen
  direction is an explicit argument of the round-start step.
* Display-only strings (`last_info_msg`, the curses drawing) carry no game
  state and are omitted from `GameState`; the arbiter's latest error
  message is kept because the arbiter contract mentions it.
-/

namespace PicoGame

/-- The four direction values; the source uses the strings
`["UP", "DOWN", "LEFT", "RIGHT"]`. -/
inductive Direction where
  | up
  | down
  | left
  | right
deriving DecidableEq, Repr

/-- The list `directions = ["UP", "DOWN", "LEFT", "RIGHT"]` from the source. -/
def directions : List Direction := [.up, .down, .left, .right]

/-- The mutable round state of `run_game`: `score`, `lives`, `round_no`,
`target`, `prompt_time` (source lines 83–87).  Python's `target = None` is
`Option.none`; `prompt_time` starts at `0.0`. -/
structure GameState where
  score : ℤ
  lives : ℤ
  round_no : ℤ
  target : Option Direction
  prompt_time : ℚ
deriving DecidableEq, Repr

/-- Initial state of `run_game`: `score = 0`, `lives = 3`, `round_no = 0`,
`target = None`, `prompt_time = 0.0`. -/
def initState : GameState :=
  { score := 0, lives := 3, round_no := 0, target := none, prompt_time := 0 }

/-- Source lines 96–100: `if target is None and lives > 0:` start a new
round — set `target` to the (randomly) chosen direction, record
`prompt_time = now`, increment `round_no`. -/
def startRound (choice : Direction) (now : ℚ) (s : GameState) : GameState :=
  if s.target = none ∧ s.lives > 0 then
    { s with target := some choice, prompt_time := now, round_no := s.round_no + 1 }
  else
    s

/-- Source lines 103–106: `if target is not None and (now - prompt_time) >
max_reaction:` decrement `lives` and clear `target`. -/
def timeoutCheck (now maxReaction : ℚ) (s : GameState) : GameState :=
  if s.target ≠ none ∧ now - s.prompt_time > maxReaction then
    { s with lives := s.lives - 1, target := none }
  else
    s

/-- One `tick` of the round engine: the two per-frame state checks of the
source (lines 96–106), in source order — round start, then time-out. -/
def tick (choice : Direction) (now maxReaction : ℚ) (s : GameState) : GameState :=
  timeoutCheck now maxReaction (startRound choice now s)

/-- The prompt deadline determined by a state: `prompt_time + max_reaction`
(the source keeps `prompt_time` and compares `now - prompt_time` against
`max_reaction`). -/
def promptDeadline (maxReaction : ℚ) (s : GameState) : ℚ :=
  s.prompt_time + maxReaction

/-- Source lines 178–190: apply a submitted action.  No-op unless both an
action and a target are present; inside the window (`now - prompt_time <=
max_reaction`) a correct action increments `score`, a wrong one decrements
`lives`; outside the window `lives` is decremented regardless; in every
non-no-op case `target` is cleared. -/
def judge (action : Option Direction) (now maxReaction : ℚ) (s : GameState) : GameState :=
  match action, s.target with
  | some a, some t =>
    if now - s.prompt_time ≤ maxReaction then
      if a = t then
        { s with score := s.score + 1, target := none }
      else
        { s with lives := s.lives - 1, target := none }
    else
      { s with lives := s.lives - 1, target := none }
  | _, _ => s


end PicoGame

namespace PicoGame

/-- C1: with a target set and the judgment time inside the reaction window
(`now - prompt_time ≤ max_reaction`), judging the matching action adds 1 to
`score` (lives unchanged) and judging a differing action subtracts 1 from
`lives` (score unchanged); both clear `target`; and judging is a no-op on a
state with no target. -/
theorem judge_in_window_spec (now maxReaction : ℚ) (s : GameState) (t a : Direction)
    (ht : s.target = some t) (hw : now - s.prompt_time ≤ maxReaction) :
    (a = t →
      judge (some a) now maxReaction s = { s with score := s.score + 1, target := none }) ∧
    (a ≠ t →
      judge (some a) now maxReaction s = { s with lives := s.lives - 1, target := none }) ∧
    (∀ s' : GameState, s'.target = none → ∀ act, judge act now maxReaction s' = s') := by
  refine ⟨?_, ?_, ?_⟩
  · intro hat
    simp [judge, ht, hw, hat]
  · intro hat
    simp [judge, ht, hw, hat]
  · intro s' hs' act
    cases act with
    | none => simp [judge]
    | some a' => simp [judge, hs']

/-- Witness for `judge_in_window_spec` at a concrete in-window state. -/
theorem judge_in_window_spec_witness :
    judge (some .up) 1 2 { score := 5, lives := 3, round_no := 4, target := some .up, prompt_time := 0 }
      = { score := 6, lives := 3, round_no := 4, target := none, prompt_time := 0 } ∧
    judge (some .down) 1 2 { score := 5, lives := 3, round_no := 4, target := some .up, prompt_time := 0 }
      = { score := 5, lives := 2, round_no := 4, target := none, prompt_time := 0 } := by
  have h := judge_in_window_spec 1 2
    { score := 5, lives := 3, round_no := 4, target := some .up, prompt_time := 0 }
    .up .up rfl (by norm_num)
  have h2 := judge_in_window_spec 1 2
    { score := 5, lives := 3, round_no := 4, target := some .up, prompt_time := 0 }
    .up .down rfl (by norm_num)
  exact ⟨h.1 rfl, h2.2.1 (by decide)⟩

/-- C6: with a target set but the window already elapsed at judgment time
(`now - prompt_time > max_reaction`), judging any action decrements `lives`
by 1 and clears `target` (score and round number untouched). -/
theorem judge_too_late_spec (now maxReaction : ℚ) (s : GameState) (t a : Direction)
    (ht : s.target = some t) (hw : maxReaction < now - s.prompt_time) :
    judge (some a) now maxReaction s = { s with lives := s.lives - 1, target := none } := by
  have hnot : ¬ now - s.prompt_time ≤ maxReaction := not_le.mpr hw
  cases hat : decide (a = t) with
  | true => simp [judge, ht, hnot, of_decide_eq_true hat]
  | false => simp [judge, ht, hnot]

/-- Witness for `judge_too_late_spec`. -/
theorem judge_too_late_spec_witness :
    judge (some .up) 9 2 { score := 5, lives := 3, round_no := 4, target := some .up, prompt_time := 0 }
      = { score := 5, lives := 2, round_no := 4, target := none, prompt_time := 0 } :=
  judge_too_late_spec 9 2 _ .up .up rfl (by norm_num)

/-- C9: a `tick` on a state with a target already set, not yet expired
(`now ≤ prompt deadline`) and `lives > 0` changes nothing: `target`,
`round_no` and `lives` are all unchanged. -/
theorem tick_idempotent_spec (choice : Direction) (now maxReaction : ℚ) (s : GameState)
    (t : Direction) (ht : s.target = some t)
    (hle : now ≤ promptDeadline maxReaction s) (hl : s.lives > 0) :
    (tick choice now maxReaction s).target = s.target ∧
    (tick choice now maxReaction s).round_no = s.round_no ∧
    (tick choice now maxReaction s).lives = s.lives := by
  have hnot : ¬ now - s.prompt_time > maxReaction := by
    simp only [promptDeadline] at hle
    simp only [not_lt]
    linarith
  have hstart : startRound choice now s = s := by
    simp [startRound, ht]
  simp [tick, hstart, timeoutCheck, hnot]

/-- Witness for `tick_idempotent_spec`. -/
theorem tick_idempotent_spec_witness :
    (tick .down 1 2 { score := 5, lives := 3, round_no := 4, target := some .up, prompt_time := 0 }).target = some .up ∧
    (tick .down 1 2 { score := 5, lives := 3, round_no := 4, target := some .up, prompt_time := 0 }).round_no = 4 ∧
    (tick .down 1 2 { score := 5, lives := 3, round_no := 4, target := some .up, prompt_time := 0 }).lives = 3 :=
  tick_idempotent_spec .down 1 2 _ .up rfl (by norm_num [promptDeadline]) (by norm_num)

/-- C3: a `tick` on a state with no target and `lives > 0` starts exactly
one new round: `round_no` grows by 1, `target` becomes the chosen value
from the 4-direction set, and the prompt deadline becomes
`now + max_reaction` (requires a non-negative window, as configured). -/
theorem tick_new_round_spec (choice : Direction) (now maxReaction : ℚ) (s : GameState)
    (hn : s.target = none) (hl : s.lives > 0) (hw : 0 ≤ maxReaction) :
    (tick choice now maxReaction s).round_no = s.round_no + 1 ∧
    (tick choice now maxReaction s).target = some choice ∧
    choice ∈ directions ∧
    promptDeadline maxReaction (tick choice now maxReaction s) = now + maxReaction := by
  have hstart : startRound choice now s =
      { s with target := some choice, prompt_time := now, round_no := s.round_no + 1 } := by
    simp [startRound, hn, hl]
  have hnot : ¬ (maxReaction < 0) := not_lt.mpr hw
  have htick : tick choice now maxReaction s =
      { s with target := some choice, prompt_time := now, round_no := s.round_no + 1 } := by
    simp [tick, hstart, timeoutCheck, sub_self, hnot]
  refine ⟨by simp [htick], by simp [htick], by cases choice <;> simp [directions],
    by simp [htick, promptDeadline]⟩

/-- Witness for `tick_new_round_spec`. -/
theorem tick_new_round_spec_witness :
    (tick .left 7 2 { score := 5, lives := 3, round_no := 4, target := none, prompt_time := 0 }).round_no = 5 ∧
    (tick .left 7 2 { score := 5, lives := 3, round_no := 4, target := none, prompt_time := 0 }).target = some .left ∧
    Direction.left ∈ directions ∧
    promptDeadline 2 (tick .left 7 2 { score := 5, lives := 3, round_no := 4, target := none, prompt_time := 0 }) = 9 := by
  have h := tick_new_round_spec .left 7 2
    { score := 5, lives := 3, round_no := 4, target := none, prompt_time := 0 }
    rfl (by norm_num) (by norm_num)
  refine ⟨by rw [h.1]; decide, h.2.1, h.2.2.1, by rw [h.2.2.2]; norm_num⟩

/-- C2: with a target set and `now` strictly past the prompt deadline, the
next `tick` decrements `lives` by exactly 1 and clears `target` (score and
round number untouched); a submission exactly at the deadline is still
judged in-window (the window check is `≤`); and if `lives` is still
positive the immediately following `tick` starts a new round. -/
theorem tick_timeout_spec (choice choice2 : Direction) (now now2 maxReaction : ℚ)
    (s : GameState) (t : Direction) (ht : s.target = some t)
    (hgt : promptDeadline maxReaction s < now) (hw : 0 ≤ maxReaction) :
    tick choice now maxReaction s = { s with lives := s.lives - 1, target := none } ∧
    (∀ a, judge (some a) (promptDeadline maxReaction s) maxReaction s =
      if a = t then { s with score := s.score + 1, target := none }
      else { s with lives := s.lives - 1, target := none }) ∧
    (s.lives - 1 > 0 →
      (tick choice2 now2 maxReaction (tick choice now maxReaction s)).target = some choice2 ∧
      (tick choice2 now2 maxReaction (tick choice now maxReaction s)).round_no
        = (tick choice now maxReaction s).round_no + 1) := by
  have hstart : startRound choice now s = s := by
    simp [startRound, ht]
  have hexp : now - s.prompt_time > maxReaction := by
    simp only [promptDeadline] at hgt
    linarith
  have htick : tick choice now maxReaction s = { s with lives := s.lives - 1, target := none } := by
    simp [tick, hstart, timeoutCheck, ht, hexp]
  refine ⟨htick, ?_, ?_⟩
  · intro a
    have hdl : promptDeadline maxReaction s - s.prompt_time ≤ maxReaction := by
      simp [promptDeadline]
    cases hat : decide (a = t) with
    | true =>
      have hat' := of_decide_eq_true hat
      simp [judge, ht, hdl, hat']
    | false =>
      have hat' := of_decide_eq_false hat
      simp [judge, ht, hdl, hat']
  · intro hlpos
    have h2 := tick_new_round_spec choice2 now2 maxReaction
      (tick choice now maxReaction s) (by rw [htick]) (by rw [htick]; exact hlpos) hw
    exact ⟨h2.2.1, h2.1⟩

/-- Witness for `tick_timeout_spec`. -/
theorem tick_timeout_spec_witness :
    tick .down 9 2 { score := 5, lives := 3, round_no := 4, target := some .up, prompt_time := 0 }
      = { score := 5, lives := 2, round_no := 4, target := none, prompt_time := 0 } ∧
    judge (some .up) (promptDeadline 2 { score := 5, lives := 3, round_no := 4, target := some .up, prompt_time := 0 }) 2
      { score := 5, lives := 3, round_no := 4, target := some .up, prompt_time := 0 }
      = { score := 6, lives := 3, round_no := 4, target := none, prompt_time := 0 } ∧
    (tick .left 10 2 (tick .down 9 2 { score := 5, lives := 3, round_no := 4, target := some .up, prompt_time := 0 })).target = some .left := by
  have h := tick_timeout_spec .down .left 9 10 2
    { score := 5, lives := 3, round_no := 4, target := some .up, prompt_time := 0 } .up rfl
    (by norm_num [promptDeadline]) (by norm_num)
  refine ⟨h.1, ?_, (h.2.2 (by norm_num)).1⟩
  have h2 := h.2.1 .up
  simp only [if_pos rfl] at h2
  exact h2

/-! ### Input arbitration (source lines 149–175) -/

/-- An event on the serial event queue as consumed by `run_game`:
`("BTN", direction)` or `("ERROR", message)`. -/
inductive QEvent where
  | btn (d : Direction)
  | error (msg : String)
deriving DecidableEq, Repr

/-- One non-blocking keyboard poll (`stdscr.getch()`), already mapped the
way lines 164–175 map it: `-1` is `nothing`, `q`/`Q` is `quit`, the four
arrow keys are `arrow`, and every other key code is `other` (ignored). -/
inductive KeyIn where
  | nothing
  | quit
  | arrow (d : Direction)
  | other
deriving DecidableEq, Repr

/-- Source lines 153–161: drain all queued events; each `BTN` overwrites
the candidate action (last one wins), each `ERROR` overwrites the latest
error message. -/
def drainEvents (events : List QEvent) (act0 : Option Direction) (err0 : Option String) :
    Option Direction × Option String :=
  events.foldl
    (fun p e =>
      match e with
      | .btn d => (some d, p.2)
      | .error m => (p.1, some m))
    (act0, err0)

/-- The arbiter's per-frame output: candidate action, latest error
message, and whether the quit key was seen. -/
structure Poll where
  action : Option Direction
  lastErr : Option String
  quitKey : Bool
deriving DecidableEq, Repr

/-- One arbiter poll (source lines 149–175): drain the queue
(`action` starts at `None` each frame, the error message persists from
`err0`), then one keyboard poll — `q` signals quit, an arrow key
overwrites the candidate action, anything else leaves it. -/
def arbiterPoll (events : List QEvent) (key : KeyIn) (err0 : Option String) : Poll :=
  let d := drainEvents events none err0
  match key with
  | .quit => { action := d.1, lastErr := d.2, quitKey := true }
  | .arrow dir => { action := some dir, lastErr := d.2, quitKey := false }
  | .nothing => { action := d.1, lastErr := d.2, quitKey := false }
  | .other => { action := d.1, lastErr := d.2, quitKey := false }

/-- The direction of the last `btn` event in a queue, if any. -/
def lastBtn (events : List QEvent) : Option Direction :=
  events.reverse.findSome?
    (fun e =>
      match e with
      | .btn d => some d
      | .error _ => none)

/-- The drained candidate action is the last queued button, falling back
to the accumulator when no button is queued. -/
theorem drainEvents_action (events : List QEvent) (act0 : Option Direction)
    (err0 : Option String) :
    (drainEvents events act0 err0).1 =
      match lastBtn events with
      | some d => some d
      | none => act0 := by
  induction events generalizing act0 err0 with
  | nil => simp [drainEvents, lastBtn]
  | cons e es ih =>
    cases e with
    | btn d =>
      simp only [drainEvents, List.foldl_cons] at ih ⊢
      rw [ih]
      simp only [lastBtn, List.reverse_cons, List.findSome?_append]
      cases h : es.reverse.findSome?
        (fun e =>
          match e with
          | QEvent.btn d => some d
          | QEvent.error _ => none) <;> simp [h]
    | error m =>
      simp only [drainEvents, List.foldl_cons] at ih ⊢
      rw [ih]
      simp only [lastBtn, List.reverse_cons, List.findSome?_append]
      cases h : es.reverse.findSome?
        (fun e =>
          match e with
          | QEvent.btn d => some d
          | QEvent.error _ => none) <;> simp [h]

/-- C5: in one arbiter poll the keyboard's direction, when present,
overrides any queued device button; otherwise the candidate action is the
direction of the last queued `btn` event (last one enqueued wins), and
`none` when no button is queued. -/
theorem arbiter_precedence_spec (events : List QEvent) (key : KeyIn) (err0 : Option String) :
    (∀ d, key = .arrow d → (arbiterPoll events key err0).action = some d) ∧
    ((key = .nothing ∨ key = .other) →
      (arbiterPoll events key err0).action = lastBtn events) ∧
    ((key = .nothing ∨ key = .other) → (∀ e ∈ events, ∀ d, e ≠ .btn d) →
      (arbiterPoll events key err0).action = none) := by
  have hd := drainEvents_action events none err0
  refine ⟨?_, ?_, ?_⟩
  · intro d hk
    subst hk
    simp [arbiterPoll]
  · intro hk
    have hact : ∀ p : Poll, p.action = (drainEvents events none err0).1 →
        p.action = lastBtn events := by
      intro p hp
      rw [hp, hd]
      cases h : lastBtn events <;> simp
    rcases hk with hk | hk <;> subst hk <;> exact hact _ rfl
  · intro hk hnob
    have hlb : lastBtn events = none := by
      simp only [lastBtn, List.findSome?_eq_none_iff]
      intro e he
      cases e with
      | btn d => exact absurd rfl (hnob (.btn d) (List.mem_reverse.mp he) d)
      | error m => simp
    have h2 : (arbiterPoll events key err0).action = lastBtn events := by
      have hact : ∀ p : Poll, p.action = (drainEvents events none err0).1 →
          p.action = lastBtn events := by
        intro p hp
        rw [hp, hd]
        cases h : lastBtn events <;> simp
      rcases hk with hk | hk <;> subst hk <;> exact hact _ rfl
    rw [h2, hlb]

/-- Witness for `arbiter_precedence_spec`: the spec's two scenarios —
queued `[Button UP, Button LEFT]` with no keyboard input yields `LEFT`,
and queued `Button UP` with keyboard `DOWN` yields `DOWN`. -/
theorem arbiter_precedence_spec_witness :
    (arbiterPoll [.btn .up, .btn .left] .nothing none).action = some .left ∧
    (arbiterPoll [.btn .up] (.arrow .down) none).action = some .down := by
  constructor
  · have h := (arbiter_precedence_spec [.btn .up, .btn .left] .nothing none).2.1 (Or.inl rfl)
    rw [h]
    decide
  · exact (arbiter_precedence_spec [.btn .up] (.arrow .down) none).1 .down rfl

/-! ### One frame of the main loop (source lines 92–192) and reachability -/

/-- Outcome of one loop iteration: continue with the new state, or break
out of the loop (the `q` key) in that state. -/
inductive FrameResult where
  | cont (s : GameState)
  | quit (s : GameState)
deriving DecidableEq, Repr

/-- The game state carried by a frame outcome. -/
def FrameResult.state : FrameResult → GameState
  | .cont s => s
  | .quit s => s

/-- Whether the frame broke out of the loop. -/
def FrameResult.isQuit : FrameResult → Bool
  | .cont _ => false
  | .quit _ => true

/-- One iteration of the `while True` loop of `run_game` (lines 92–192):
capture `now`; round start and time-out checks (the `tick`); if
`lives <= 0`, render game over and accept only `q` (lines 138–147,
the queue is not drained there); otherwise drain the queue and poll the
keyboard (the arbiter, lines 149–175; `q` breaks before judging), then
apply the action (lines 177–190). -/
def frame (maxReaction now : ℚ) (choice : Direction) (events : List QEvent)
    (key : KeyIn) (err0 : Option String) (s : GameState) : FrameResult :=
  let s1 := tick choice now maxReaction s
  if s1.lives ≤ 0 then
    match key with
    | .quit => .quit s1
    | _ => .cont s1
  else
    let p := arbiterPoll events key err0
    if p.quitKey then .quit s1
    else .cont (judge p.action now maxReaction s1)

/-- States reachable from the initial state of `run_game` by frames that
did not break out of the loop, for arbitrary frame times, random choices
and inputs. -/
inductive Reachable (maxReaction : ℚ) : GameState → Prop where
  | init : Reachable maxReaction initState
  | step {s s' : GameState} (now : ℚ) (choice : Direction) (events : List QEvent)
      (key : KeyIn) (err0 : Option String) (hr : Reachable maxReaction s)
      (hf : frame maxReaction now choice events key err0 s = .cont s') :
      Reachable maxReaction s'

/-- The loop invariant: `lives` never negative, and a dead state has no
pending target. -/
def Inv (s : GameState) : Prop :=
  0 ≤ s.lives ∧ (s.lives = 0 → s.target = none)

/-- `startRound` either leaves the state alone or starts a round. -/
theorem startRound_cases (choice : Direction) (now : ℚ) (s : GameState) :
    startRound choice now s = s ∨
    (s.target = none ∧ s.lives > 0 ∧ startRound choice now s =
      { s with target := some choice, prompt_time := now, round_no := s.round_no + 1 }) := by
  by_cases h : s.target = none ∧ s.lives > 0
  · exact Or.inr ⟨h.1, h.2, by simp [startRound, h]⟩
  · exact Or.inl (by simp [startRound, h])

/-- A `tick` either keeps `lives` or loses exactly one life while clearing
the target. -/
theorem tick_lives_cases (choice : Direction) (now maxR : ℚ) (s : GameState) :
    (tick choice now maxR s).lives = s.lives ∨
    ((tick choice now maxR s).lives = s.lives - 1 ∧ (tick choice now maxR s).target = none) := by
  unfold tick
  rcases startRound_cases choice now s with hs | ⟨ht, hl, hs⟩ <;> rw [hs] <;> unfold timeoutCheck
  · by_cases hc : s.target ≠ none ∧ now - s.prompt_time > maxR
    · right
      rw [if_pos hc]
      exact ⟨rfl, rfl⟩
    · left
      rw [if_neg hc]
  · by_cases hc : now - now > maxR
    · right
      rw [if_pos ⟨by simp, hc⟩]
      exact ⟨rfl, rfl⟩
    · left
      rw [if_neg (by simpa using hc)]

/-- A judged frame loses at most one life. -/
theorem judge_lives_ge (act : Option Direction) (now maxR : ℚ) (s : GameState) :
    s.lives - 1 ≤ (judge act now maxR s).lives := by
  cases act with
  | none => cases ht : s.target <;> simp [judge, ht]
  | some a =>
    cases ht : s.target with
    | none => simp [judge, ht]
    | some t =>
      simp only [judge, ht]
      by_cases hw : now - s.prompt_time ≤ maxR
      · rw [if_pos hw]
        by_cases hat : a = t
        · rw [if_pos hat]
          simp
        · rw [if_neg hat]
      · rw [if_neg hw]

/-- Judging is a no-op without a target. -/
theorem judge_noop_of_no_target (act : Option Direction) (now maxR : ℚ) (s : GameState)
    (ht : s.target = none) : judge act now maxR s = s := by
  cases act <;> simp [judge, ht]

/-- A dead state with no target is frozen by `tick`. -/
theorem tick_frozen (choice : Direction) (now maxR : ℚ) (s : GameState)
    (h0 : ¬ s.lives > 0) (ht : s.target = none) : tick choice now maxR s = s := by
  have h1 : startRound choice now s = s := by simp [startRound, h0]
  simp [tick, h1, timeoutCheck, ht]

/-- `tick` preserves the loop invariant. -/
theorem tick_inv (choice : Direction) (now maxR : ℚ) (s : GameState) (h : Inv s) :
    Inv (tick choice now maxR s) := by
  obtain ⟨h1, h2⟩ := h
  unfold tick
  rcases startRound_cases choice now s with hs | ⟨ht, hl, hs⟩ <;> rw [hs] <;> unfold timeoutCheck
  · by_cases hc : s.target ≠ none ∧ now - s.prompt_time > maxR
    · rw [if_pos hc]
      have hne : s.lives ≠ 0 := fun hz => hc.1 (h2 hz)
      exact ⟨by simp; omega, by simp⟩
    · rw [if_neg hc]
      exact ⟨h1, h2⟩
  · by_cases hc : now - now > maxR
    · rw [if_pos ⟨by simp, hc⟩]
      exact ⟨by simp; omega, by simp⟩
    · rw [if_neg (by simpa using hc)]
      exact ⟨by simp; omega, by simp; omega⟩

/-- `judge` preserves the loop invariant on a live state. -/
theorem judge_inv (act : Option Direction) (now maxR : ℚ) (s : GameState)
    (h : Inv s) (hl : 0 < s.lives) : Inv (judge act now maxR s) := by
  cases act with
  | none => cases ht : s.target <;> simp [judge, ht] <;> exact ⟨h.1, h.2⟩
  | some a =>
    cases ht : s.target with
    | none =>
      rw [judge_noop_of_no_target _ _ _ _ ht]
      exact h
    | some t =>
      simp only [judge, ht]
      by_cases hw : now - s.prompt_time ≤ maxR
      · rw [if_pos hw]
        by_cases hat : a = t
        · rw [if_pos hat]
          exact ⟨by simp; omega, by simp⟩
        · rw [if_neg hat]
          exact ⟨by simp; omega, by simp⟩
      · rw [if_neg hw]
        exact ⟨by simp; omega, by simp⟩

/-- A frame preserves the loop invariant (on the state it carries, whether
it continues or quits). -/
theorem frame_inv (maxR now : ℚ) (choice : Direction) (events : List QEvent)
    (key : KeyIn) (err0 : Option String) (s : GameState) (h : Inv s) :
    Inv (frame maxR now choice events key err0 s).state := by
  have h1 := tick_inv choice now maxR s h
  unfold frame
  by_cases hg : (tick choice now maxR s).lives ≤ 0
  · rw [if_pos hg]
    cases key <;> exact h1
  · rw [if_neg hg]
    by_cases hq : (arbiterPoll events key err0).quitKey
    · simp only [hq, if_true]
      exact h1
    · simp only [hq, if_false, Bool.false_eq_true]
      exact judge_inv _ now maxR _ h1 (by omega)

/-- Every reachable state satisfies the loop invariant. -/
theorem reachable_inv {maxR : ℚ} {s : GameState} (h : Reachable maxR s) : Inv s := by
  induction h with
  | init => exact ⟨by norm_num [initState], by norm_num [initState]⟩
  | step now choice events key err0 hr hf ih =>
    have hinv := frame_inv maxR now choice events key err0 _ ih
    rw [hf] at hinv
    exact hinv

/-- C4: a reachable state with `lives = 0` is terminal: `tick` and `judge`
leave `round_no`, `score`, `lives` and `target` unchanged (they return the
state itself), every further frame carries the same state, and the only
input the loop still reacts to is the quit key. -/
theorem terminal_spec (maxR : ℚ) (s : GameState) (h : Reachable maxR s)
    (h0 : s.lives = 0) :
    (∀ choice : Direction, ∀ now : ℚ, tick choice now maxR s = s) ∧
    (∀ act : Option Direction, ∀ now : ℚ, judge act now maxR s = s) ∧
    (∀ now : ℚ, ∀ choice : Direction, ∀ events : List QEvent, ∀ key : KeyIn,
      ∀ err0 : Option String,
      (frame maxR now choice events key err0 s).state = s ∧
      ((frame maxR now choice events key err0 s).isQuit = true ↔ key = .quit)) := by
  have ht : s.target = none := (reachable_inv h).2 h0
  have htick : ∀ choice : Direction, ∀ now : ℚ, tick choice now maxR s = s := by
    intro choice now
    exact tick_frozen choice now maxR s (by omega) ht
  refine ⟨htick, fun act now => judge_noop_of_no_target act now maxR s ht, ?_⟩
  intro now choice events key err0
  have hg : (tick choice now maxR s).lives ≤ 0 := by rw [htick choice now]; omega
  constructor
  · unfold frame
    rw [if_pos hg, htick choice now]
    cases key <;> rfl
  · unfold frame
    rw [if_pos hg]
    cases key <;> simp [FrameResult.isQuit]

/-- A concrete dead state reached by six frames (three time-outs) with
`max_reaction = 1`. -/
theorem reach_dead :
    Reachable 1 { score := 0, lives := 0, round_no := 3, target := none, prompt_time := 4 } := by
  have h0 : Reachable 1 initState := .init
  have h1 : Reachable 1 { score := 0, lives := 3, round_no := 1, target := some .up, prompt_time := 0 } :=
    .step 0 .up [] .nothing none h0 (by norm_num [frame, tick, startRound, timeoutCheck, arbiterPoll, drainEvents, judge, initState, Option.some_ne_none])
  have h2 : Reachable 1 { score := 0, lives := 2, round_no := 1, target := none, prompt_time := 0 } :=
    .step 2 .up [] .nothing none h1 (by norm_num [frame, tick, startRound, timeoutCheck, arbiterPoll, drainEvents, judge, initState, Option.some_ne_none])
  have h3 : Reachable 1 { score := 0, lives := 2, round_no := 2, target := some .up, prompt_time := 2 } :=
    .step 2 .up [] .nothing none h2 (by norm_num [frame, tick, startRound, timeoutCheck, arbiterPoll, drainEvents, judge, initState, Option.some_ne_none])
  have h4 : Reachable 1 { score := 0, lives := 1, round_no := 2, target := none, prompt_time := 2 } :=
    .step 4 .up [] .nothing none h3 (by norm_num [frame, tick, startRound, timeoutCheck, arbiterPoll, drainEvents, judge, initState, Option.some_ne_none])
  have h5 : Reachable 1 { score := 0, lives := 1, round_no := 3, target := some .up, prompt_time := 4 } :=
    .step 4 .up [] .nothing none h4 (by norm_num [frame, tick, startRound, timeoutCheck, arbiterPoll, drainEvents, judge, initState, Option.some_ne_none])
  exact .step 6 .up [] .nothing none h5 (by norm_num [frame, tick, startRound, timeoutCheck, arbiterPoll, drainEvents, judge, initState, Option.some_ne_none])

/-- Witness for `terminal_spec` at the concrete dead state of
`reach_dead`. -/
theorem terminal_spec_witness :
    tick .up 9 1 { score := 0, lives := 0, round_no := 3, target := none, prompt_time := 4 }
      = { score := 0, lives := 0, round_no := 3, target := none, prompt_time := 4 } ∧
    judge (some .left) 9 1 { score := 0, lives := 0, round_no := 3, target := none, prompt_time := 4 }
      = { score := 0, lives := 0, round_no := 3, target := none, prompt_time := 4 } ∧
    (frame 1 9 .up [.btn .down] .nothing none
      { score := 0, lives := 0, round_no := 3, target := none, prompt_time := 4 }).state
      = { score := 0, lives := 0, round_no := 3, target := none, prompt_time := 4 } ∧
    (frame 1 9 .up [] .quit none
      { score := 0, lives := 0, round_no := 3, target := none, prompt_time := 4 }).isQuit = true := by
  have h := terminal_spec 1 _ reach_dead rfl
  exact ⟨h.1 .up 9, h.2.1 (some .left) 9, (h.2.2 9 .up [.btn .down] .nothing none).1,
    (h.2.2 9 .up [] .quit none).2.mpr rfl⟩

/-- C10: every reachable state has `lives ≥ 0`, a single frame loses at
most one life (the time-out decrement and a judge decrement never both
fire in one frame, since the time-out clears the target before the action
is applied), and once `lives` is 0 no frame changes it. -/
theorem lives_bounds_spec (maxR now : ℚ) (choice : Direction) (events : List QEvent)
    (key : KeyIn) (err0 : Option String) (s : GameState) (h : Reachable maxR s) :
    0 ≤ s.lives ∧
    s.lives - 1 ≤ (frame maxR now choice events key err0 s).state.lives ∧
    (s.lives = 0 → (frame maxR now choice events key err0 s).state.lives = s.lives) := by
  have hinv := reachable_inv h
  refine ⟨hinv.1, ?_, ?_⟩
  · unfold frame
    rcases tick_lives_cases choice now maxR s with hc | ⟨hc, hct⟩
    · by_cases hg : (tick choice now maxR s).lives ≤ 0
      · rw [if_pos hg]
        cases key <;> simp [FrameResult.state] <;> omega
      · rw [if_neg hg]
        by_cases hq : (arbiterPoll events key err0).quitKey
        · simp only [hq, if_true]
          simp [FrameResult.state]
          omega
        · simp only [hq, if_false, Bool.false_eq_true]
          have := judge_lives_ge (arbiterPoll events key err0).action now maxR
            (tick choice now maxR s)
          simp [FrameResult.state]
          omega
    · have hj : ∀ act, judge act now maxR (tick choice now maxR s) = tick choice now maxR s :=
        fun act => judge_noop_of_no_target act now maxR _ hct
      by_cases hg : (tick choice now maxR s).lives ≤ 0
      · rw [if_pos hg]
        cases key <;> simp [FrameResult.state] <;> omega
      · rw [if_neg hg]
        by_cases hq : (arbiterPoll events key err0).quitKey
        · simp only [hq, if_true]
          simp [FrameResult.state]
          omega
        · simp only [hq, if_false, Bool.false_eq_true]
          rw [hj]
          simp [FrameResult.state]
          omega
  · intro h0
    have ht : s.target = none := hinv.2 h0
    have htick : tick choice now maxR s = s := tick_frozen choice now maxR s (by omega) ht
    unfold frame
    rw [htick, if_pos (by omega)]
    cases key <;> rfl

/-- Witness for `lives_bounds_spec` at the initial state. -/
theorem lives_bounds_spec_witness :
    0 ≤ initState.lives ∧
    initState.lives - 1 ≤ (frame 1 0 .up [] .nothing none initState).state.lives ∧
    (initState.lives = 0 → (frame 1 0 .up [] .nothing none initState).state.lives = initState.lives) :=
  lives_bounds_spec 1 0 .up [] .nothing none initState .init

/-! ### Line framing (source lines 29–45)

Bytes are modelled as `Nat` values below 256 and decoded text as a list of
Unicode codepoints. -/

/-- The ASCII whitespace bytes removed by Python's `bytes.strip()`:
space, tab, newline, carriage return, vertical tab, form feed. -/
def isSpaceByte (b : Nat) : Bool :=
  b == 0x20 || b == 0x09 || b == 0x0A || b == 0x0D || b == 0x0B || b == 0x0C

/-- Python `line.strip()` on bytes: drop ASCII whitespace from both
ends. -/
def bstrip (l : List Nat) : List Nat :=
  ((l.dropWhile isSpaceByte).reverse.dropWhile isSpaceByte).reverse

/-- A UTF-8 continuation byte (`0x80–0xBF`). -/
def isCont (b : Nat) : Bool :=
  0x80 ≤ b && b ≤ 0xBF

/-- Lower bound of the first continuation byte admitted after a 3- or
4-byte lead (RFC 3629: `E0` needs `A0–BF`, `F0` needs `90–BF`). -/
def contLo (lead : Nat) : Nat :=
  if lead = 0xE0 then 0xA0 else if lead = 0xF0 then 0x90 else 0x80

/-- Upper bound of the first continuation byte admitted after a 3- or
4-byte lead (RFC 3629: `ED` allows `80–9F`, `F4` allows `80–8F`). -/
def contHi (lead : Nat) : Nat :=
  if lead = 0xED then 0x9F else if lead = 0xF4 then 0x8F else 0xBF

/-- First continuation byte check, lead-dependent. -/
def isCont1 (lead b : Nat) : Bool :=
  contLo lead ≤ b && b ≤ contHi lead

/-- UTF-8 decoding with an error handler that emits `repl` for each
maximal invalid subpart, the way CPython's incremental UTF-8 decoder
delimits error units: a truncated prefix of a valid sequence is one unit;
a lead whose next byte is outside its admissible range is a one-byte unit
and decoding resumes at that next byte.  `repl = []` is
`errors="ignore"` (the source, line 43); `repl = [0xFFFD]` is
substitution (`errors="replace"`). -/
def utf8DecodeWith (repl : List Nat) : List Nat → List Nat
  | [] => []
  | b :: rest =>
    if b < 0x80 then
      b :: utf8DecodeWith repl rest
    else if 0xC2 ≤ b && b ≤ 0xDF then
      match rest with
      | [] => repl
      | c1 :: rest1 =>
        if isCont c1 then
          ((b - 0xC0) * 0x40 + (c1 - 0x80)) :: utf8DecodeWith repl rest1
        else
          repl ++ utf8DecodeWith repl (c1 :: rest1)
    else if 0xE0 ≤ b && b ≤ 0xEF then
      match rest with
      | [] => repl
      | c1 :: rest1 =>
        if isCont1 b c1 then
          match rest1 with
          | [] => repl
          | c2 :: rest2 =>
            if isCont c2 then
              ((b - 0xE0) * 0x1000 + (c1 - 0x80) * 0x40 + (c2 - 0x80)) ::
                utf8DecodeWith repl rest2
            else
              repl ++ utf8DecodeWith repl (c2 :: rest2)
        else
          repl ++ utf8DecodeWith repl (c1 :: rest1)
    else if 0xF0 ≤ b && b ≤ 0xF4 then
      match rest with
      | [] => repl
      | c1 :: rest1 =>
        if isCont1 b c1 then
          match rest1 with
          | [] => repl
          | c2 :: rest2 =>
            if isCont c2 then
              match rest2 with
              | [] => repl
              | c3 :: rest3 =>
                if isCont c3 then
                  ((b - 0xF0) * 0x40000 + (c1 - 0x80) * 0x1000 + (c2 - 0x80) * 0x40 +
                    (c3 - 0x80)) :: utf8DecodeWith repl rest3
                else
                  repl ++ utf8DecodeWith repl (c3 :: rest3)
            else
              repl ++ utf8DecodeWith repl (c2 :: rest2)
        else
          repl ++ utf8DecodeWith repl (c1 :: rest1)
    else
      repl ++ utf8DecodeWith repl rest

/-- Python `str.upper` at codepoint granularity, restricted to the
single-codepoint case mappings that can reach ASCII: lowercase `a–z` map
to `A–Z`, U+0131 (dotless i) maps to `I`, U+017F (long s) maps to `S`.
Every other codepoint is kept: its true uppercase image is never an ASCII
letter (and the multi-codepoint expansions `SS`, `FF`, `FI`, `FL`,
`FFI`, `FFL`, `ST` are not substrings of any direction word), so identity
preserves membership in the direction vocabulary exactly. -/
def pyUpperChar (c : Nat) : Nat :=
  if 0x61 ≤ c ∧ c ≤ 0x7A then c - 0x20
  else if c = 0x131 then 0x49
  else if c = 0x17F then 0x53
  else c

/-- Python `str.upper` over a decoded text. -/
def pyUpper (l : List Nat) : List Nat :=
  l.map pyUpperChar

/-- Codepoints of a string literal. -/
def strCodes (s : String) : List Nat :=
  s.data.map Char.toNat

/-- The token vocabulary `valid = {"UP", "DOWN", "LEFT", "RIGHT"}`
(source line 30). -/
def valid : List (List Nat) :=
  [strCodes "UP", strCodes "DOWN", strCodes "LEFT", strCodes "RIGHT"]

/-- Source line 43 for one completed line:
`line.strip().decode(errors="ignore").upper()`. -/
def lineText (line : List Nat) : List Nat :=
  pyUpper (utf8DecodeWith [] (bstrip line))

/-- Source lines 43–45: the token yielded for one completed line, when
its processed text is in the vocabulary; `none` means the line is
silently discarded. -/
def lineToken (line : List Nat) : Option (List Nat) :=
  if lineText line ∈ valid then some (lineText line) else none

/-- One `buf.split(b"\n", 1)` step: the part before the first newline and
the part after it, or `none` when the buffer holds no newline. -/
def splitOnceNl : List Nat → Option (List Nat × List Nat)
  | [] => none
  | b :: rest =>
    if b = 10 then some ([], rest)
    else (splitOnceNl rest).map (fun p => (b :: p.1, p.2))

/-- A successful split decomposes the buffer around its first newline. -/
theorem splitOnceNl_some_eq : ∀ {buf line rest : List Nat},
    splitOnceNl buf = some (line, rest) → buf = line ++ 10 :: rest := by
  intro buf
  induction buf with
  | nil => intro line rest h; simp [splitOnceNl] at h
  | cons b bs ih =>
    intro line rest h
    by_cases hb : b = 10
    · simp [splitOnceNl, hb] at h
      obtain ⟨h1, h2⟩ := h
      subst h1
      subst h2
      simp [hb]
    · simp only [splitOnceNl, hb, if_false] at h
      cases hs : splitOnceNl bs with
      | none => rw [hs] at h; cases h
      | some p =>
        rw [hs] at h
        cases h
        rw [List.cons_append, ← ih hs]

/-- A successful split shrinks the remaining buffer. -/
theorem splitOnceNl_length {buf line rest : List Nat}
    (h : splitOnceNl buf = some (line, rest)) : rest.length < buf.length := by
  rw [splitOnceNl_some_eq h]
  simp
  omega

/-- The split fails exactly on newline-free buffers. -/
theorem splitOnceNl_none_iff : ∀ {buf : List Nat},
    splitOnceNl buf = none ↔ 10 ∉ buf := by
  intro buf
  induction buf with
  | nil => simp [splitOnceNl]
  | cons b bs ih =>
    by_cases hb : b = 10
    · simp [splitOnceNl, hb]
    · simp [splitOnceNl, hb, Option.map_eq_none', ih, Ne.symm hb]

/-- Splitting a buffer with a newline ignores appended bytes. -/
theorem splitOnceNl_append_some {x : List Nat} (y : List Nat)
    {line rest : List Nat} (h : splitOnceNl x = some (line, rest)) :
    splitOnceNl (x ++ y) = some (line, rest ++ y) := by
  induction x generalizing line rest with
  | nil => simp [splitOnceNl] at h
  | cons b bs ih =>
    by_cases hb : b = 10
    · simp [splitOnceNl, hb] at h
      obtain ⟨h1, h2⟩ := h
      subst h1
      subst h2
      simp [splitOnceNl, hb]
    · simp only [splitOnceNl, hb, if_false] at h
      cases hs : splitOnceNl bs with
      | none => rw [hs] at h; cases h
      | some p =>
        obtain ⟨l2, r2⟩ := p
        rw [hs] at h
        cases h
        have hstep : splitOnceNl ((b :: bs) ++ y)
            = (splitOnceNl (bs ++ y)).map (fun p => (b :: p.1, p.2)) := by
          simp [splitOnceNl, hb]
        rw [hstep, ih hs]
        rfl

/-- Splitting after appending to a newline-free buffer splits the
appended part, with the buffer glued onto the first line. -/
theorem splitOnceNl_append_none {x : List Nat} (y : List Nat)
    (h : splitOnceNl x = none) :
    splitOnceNl (x ++ y) = (splitOnceNl y).map (fun p => (x ++ p.1, p.2)) := by
  induction x with
  | nil => simp
  | cons b bs ih =>
    by_cases hb : b = 10
    · simp [splitOnceNl, hb] at h
    · simp only [splitOnceNl, hb, if_false, Option.map_eq_none'] at h
      have hstep : splitOnceNl ((b :: bs) ++ y)
          = (splitOnceNl (bs ++ y)).map (fun p => (b :: p.1, p.2)) := by
        simp [splitOnceNl, hb]
      rw [hstep, ih h]
      cases hy : splitOnceNl y <;> simp

/-- Source lines 41–42: `while b"\n" in buf: line, buf = buf.split(b"\n", 1)`
— all completed lines of the buffer, and the retained partial line. -/
def drainBuf (buf : List Nat) : List (List Nat) × List Nat :=
  match h : splitOnceNl buf with
  | some (line, rest) =>
    have : rest.length < buf.length := splitOnceNl_length h
    let p := drainBuf rest
    (line :: p.1, p.2)
  | none => ([], buf)
termination_by buf.length

/-- Unfolding `drainBuf` on a newline-free buffer. -/
theorem drainBuf_none {buf : List Nat} (h : splitOnceNl buf = none) :
    drainBuf buf = ([], buf) := by
  rw [drainBuf]
  split
  · next line rest heq => rw [h] at heq; cases heq
  · rfl

/-- Unfolding `drainBuf` on a buffer with a newline. -/
theorem drainBuf_some {buf line rest : List Nat}
    (h : splitOnceNl buf = some (line, rest)) :
    drainBuf buf = (line :: (drainBuf rest).1, (drainBuf rest).2) := by
  rw [drainBuf]
  split
  · next l r heq =>
    rw [h] at heq
    cases heq
    rfl
  · next heq => rw [h] at heq; cases heq

/-- The retained partial line never contains a newline. -/
theorem drainBuf_no_newline (buf : List Nat) : 10 ∉ (drainBuf buf).2 := by
  induction buf using drainBuf.induct with
  | case1 x line rest hs hlen ih =>
    rw [drainBuf_some hs]
    exact ih
  | case2 x hs =>
    rw [drainBuf_none hs]
    exact splitOnceNl_none_iff.mp hs

/-- Draining a concatenation drains the first part, then the retained
partial line glued to the second part. -/
theorem drainBuf_append (x y : List Nat) :
    (drainBuf (x ++ y)).1 = (drainBuf x).1 ++ (drainBuf ((drainBuf x).2 ++ y)).1 ∧
    (drainBuf (x ++ y)).2 = (drainBuf ((drainBuf x).2 ++ y)).2 := by
  induction x using drainBuf.induct with
  | case1 x line rest hs hlen ih =>
    have h1 : splitOnceNl (x ++ y) = some (line, rest ++ y) :=
      splitOnceNl_append_some y hs
    rw [drainBuf_some h1, drainBuf_some hs]
    exact ⟨by simp [ih.1], by simp [ih.2]⟩
  | case2 x hs =>
    rw [drainBuf_none hs]
    simp

/-- Source lines 39–45 for one non-empty read: the chunk is appended to
the buffer, every completed line is split off and processed, and the
valid tokens are yielded in order; the partial line stays in the
buffer. -/
def feedChunk (buf data : List Nat) : List (List Nat) × List Nat :=
  ((drainBuf (buf ++ data)).1.filterMap lineToken, (drainBuf (buf ++ data)).2)

/-- The framing loop over a whole sequence of received chunks, starting
from the empty buffer (`buf = b""`, source line 29), accumulating the
published tokens. -/
def runFramer (chunks : List (List Nat)) : List (List Nat) × List Nat :=
  chunks.foldl
    (fun st data =>
      let p := feedChunk st.2 data
      (st.1 ++ p.1, p.2))
    ([], [])

/-- Chunk-by-chunk framing from any newline-free buffer equals framing
the concatenated stream in one piece. -/
theorem runFramer_foldl (chunks : List (List Nat)) :
    ∀ (acc : List (List Nat)) (buf : List Nat), 10 ∉ buf →
    chunks.foldl
        (fun st data =>
          let p := feedChunk st.2 data
          (st.1 ++ p.1, p.2))
        (acc, buf)
      = (acc ++ (drainBuf (buf ++ chunks.flatten)).1.filterMap lineToken,
         (drainBuf (buf ++ chunks.flatten)).2) := by
  induction chunks with
  | nil =>
    intro acc buf hb
    have h := drainBuf_none (splitOnceNl_none_iff.mpr hb)
    simp [h]
  | cons c cs ih =>
    intro acc buf hb
    rw [List.foldl_cons]
    rw [show ((acc, buf).1 ++ (feedChunk (acc, buf).2 c).1, (feedChunk (acc, buf).2 c).2)
        = (acc ++ (feedChunk buf c).1, (feedChunk buf c).2) from rfl]
    rw [ih (acc ++ (feedChunk buf c).1) (feedChunk buf c).2
      (by exact drainBuf_no_newline (buf ++ c))]
    have hap := drainBuf_append (buf ++ c) cs.flatten
    simp only [feedChunk, List.flatten_cons, Prod.mk.injEq]
    rw [← List.append_assoc buf c cs.flatten, hap.1, hap.2]
    exact ⟨by simp [List.filterMap_append, List.append_assoc], rfl⟩

/-- A filtered-map view of token extraction: the published tokens of a
line list are exactly the processed texts that lie in the vocabulary. -/
theorem filterMap_lineToken (ls : List (List Nat)) :
    ls.filterMap lineToken = (ls.map lineText).filter (fun t => t ∈ valid) := by
  induction ls with
  | nil => rfl
  | cons l ls ih =>
    by_cases h : lineText l ∈ valid <;>
      simp [lineToken, h, ih]

/-- C8 (amended): for every sequence of byte chunks, the tokens produced
are exactly those newline-delimited lines of the concatenated stream
that, after trimming surrounding whitespace, lenient decoding with
invalid bytes dropped (`errors="ignore"`), and upper-casing, equal one of
UP, DOWN, LEFT, RIGHT; every other line is silently discarded, and the
partial line after the last newline is retained (newline-free) in the
buffer across calls. -/
theorem framer_stream_spec (chunks : List (List Nat)) :
    (runFramer chunks).1
      = ((drainBuf chunks.flatten).1.map lineText).filter (fun t => t ∈ valid) ∧
    (runFramer chunks).2 = (drainBuf chunks.flatten).2 ∧
    10 ∉ (runFramer chunks).2 := by
  have h : runFramer chunks
      = (([] : List (List Nat)) ++ (drainBuf ([] ++ chunks.flatten)).1.filterMap lineToken,
         (drainBuf ([] ++ chunks.flatten)).2) :=
    runFramer_foldl chunks [] [] (by simp)
  rw [h]
  refine ⟨by simp [filterMap_lineToken], by simp, by simp [drainBuf_no_newline]⟩

/-- Modelled from the spec: the spec's words for the lenient decode are
"invalid encoding substituted rather than failing", i.e. each invalid
subpart replaced by U+FFFD (`errors="replace"`); the processed text of a
line under that reading. -/
def lineTextSub (line : List Nat) : List Nat :=
  pyUpper (utf8DecodeWith [0xFFFD] (bstrip line))

/-- C8 counterexample: on the chunk `b"UÿP
"` the framer publishes
the token `UP` (the invalid byte `0xFF` is dropped by
`errors="ignore"`), although the line's text under substitution decoding
is `U�P`, which is not in the vocabulary — so the claim's
"substituted" reading of the filter does not describe the code. -/
theorem framer_substitution_counterexample :
    (runFramer [[85, 255, 80, 10]]).1 = [strCodes "UP"] ∧
    lineTextSub [85, 255, 80] ≠ strCodes "UP" ∧
    lineTextSub [85, 255, 80] ∉ valid := by
  have h1 : drainBuf [85, 255, 80, 10] = ([[85, 255, 80]], []) := by
    rw [drainBuf_some (show splitOnceNl [85, 255, 80, 10] = some ([85, 255, 80], []) from rfl),
        drainBuf_none (show splitOnceNl ([] : List Nat) = none from rfl)]
  refine ⟨?_, by decide, by decide⟩
  have h2 : runFramer [[85, 255, 80, 10]] = ([[85, 255, 80]].filterMap lineToken, []) := by
    simp [runFramer, feedChunk, h1]
  rw [h2]
  decide

/-! ### The serial reader (source lines 18–52) -/

/-- An event published by `serial_reader`: a recognized button token or a
connection error message. -/
inductive SerialEvent where
  | btn (token : List Nat)
  | error (msg : String)
deriving DecidableEq, Repr

/-- Outcome of one `ser.read(32)` call: a chunk of bytes (possibly
empty), or a raised exception with a message. -/
inductive ReadResult where
  | ok (data : List Nat)
  | err (msg : String)
deriving DecidableEq, Repr

/-- The read loop of `serial_reader` (source lines 32–47) after a
successful open: for each read until the stop event, a failing read
publishes one error and breaks; a non-empty chunk is framed and each
valid token published as a button event; an empty chunk only sleeps. -/
def readerLoop (buf : List Nat) : List ReadResult → List SerialEvent
  | [] => []
  | .err m :: _ => [.error m]
  | .ok data :: rest =>
    if data ≠ [] then
      let p := feedChunk buf data
      p.1.map SerialEvent.btn ++ readerLoop p.2 rest
    else
      readerLoop buf rest

/-- `serial_reader` (source lines 18–52) given the outcome of the open
attempt (lines 22–27): a failed `serial.Serial(...)` publishes exactly
one error event and returns; a successful open runs the read loop on the
reads observed before the stop event. -/
def serialReader (openFailure : Option String) (reads : List ReadResult) :
    List SerialEvent :=
  match openFailure with
  | some e => [.error e]
  | none => readerLoop [] reads

/-- C7: when the open attempt fails, the listener publishes exactly one
`Error` event and terminates: no further event of any kind, in
particular no button event, regardless of what the port would have
offered to read. -/
theorem open_failure_spec (e : String) (reads : List ReadResult) :
    serialReader (some e) reads = [.error e] ∧
    (serialReader (some e) reads).length = 1 ∧
    ∀ t, SerialEvent.btn t ∉ serialReader (some e) reads := by
  refine ⟨rfl, rfl, ?_⟩
  intro t h
  simp only [serialReader, List.mem_singleton] at h
  exact SerialEvent.noConfusion h

end PicoGame
